import Mathlib

/-!
Shallow embedding of `heic-to-jpg-converter.js` (single-file converter,
directory batch orchestrator, CLI front end) and verification of the
specification's claims about it.

Conventions of the embedding:
* File-system paths and file names are `String`s.  Path segments coming from
  `fs.readdir` are ordinary entry names (never `"."` or `".."`, never
  containing `/`), so `path.join` is modelled as concatenation with a `/`
  separator and `path.extname` / `path.basename` are modelled on bare names.
* The external codec (`heic-convert`), the file system, and `fs.utimes` are
  opaque collaborators; their success or failure is an input of the model
  (`ConvEnv`), and the observable behaviour — console output, file reads and
  writes, returned value or thrown error — is an explicit event trace.
* JavaScript machine integers do not appear: quality values and counters are
  small non-negative integers (`Nat`), and `parseInt` results are `Int`.
-/

set_option autoImplicit false

deriving instance DecidableEq for Except

namespace HeicConv

/-- ASCII lower-casing of one character, as the `i` flag of a JS regex
applies to the ASCII letters used in the extension patterns. -/
def asciiLower (c : Char) : Char :=
  if 'A' ≤ c ∧ c ≤ 'Z' then Char.ofNat (c.toNat + 32) else c

/-- Lower-case a whole string (ASCII). -/
def lowerStr (s : String) : String := String.mk (s.data.map asciiLower)

/-- `s` ends with `t`, computed on the underlying character lists (the
core `String.endsWith` is byte-position based and does not reduce in the
kernel, so the model uses its own suffix test). -/
def endsWithStr (s t : String) : Bool :=
  Nat.ble t.data.length s.data.length &&
    s.data.drop (s.data.length - t.data.length) == t.data

/-- Drop the last `n` characters of a string. -/
def dropRightStr (s : String) (n : Nat) : String :=
  String.mk (s.data.take (s.data.length - n))

/-- `inputPath.replace(/\.heic$/i, '.jpg')` (line 30 of the source):
if the path ends in `.heic` in any letter case, the final five characters
are replaced by `.jpg`; otherwise the path is returned unchanged.
Note the source regex matches only `heic`, not `heif`. -/
def replaceHeicExt (s : String) : String :=
  if endsWithStr (lowerStr s) ".heic" then dropRightStr s 5 ++ ".jpg" else s

/-- The batch filter `/\.(heic|heif)$/i.test(file.name)` (line 111). -/
def isHeic (name : String) : Bool :=
  endsWithStr (lowerStr name) ".heic" || endsWithStr (lowerStr name) ".heif"

/-- `path.extname` on a bare file name (no directory part): the substring
from the last `.` to the end, except that a `.` which is the first character
of the name does not start an extension.  Mirrors Node's behaviour on
`readdir` entry names. -/
def extname (s : String) : String :=
  let cs := s.toList
  let t := cs.reverse.takeWhile (fun c => c ≠ '.')
  if t.length + 1 < cs.length then String.mk ('.' :: t.reverse) else ""

/-- `path.basename(name, ext)` on a bare file name: strips `ext` when it is
a proper suffix of the name (Node keeps the name whole when it equals the
extension, e.g. `basename('.heic', '.heic') = '.heic'`). -/
def basenameStrip (name ext : String) : String :=
  if ext ≠ "" ∧ endsWithStr name ext = true ∧ ext.data.length < name.data.length then
    dropRightStr name ext.data.length
  else name

/-- `path.basename(file, path.extname(file)) + '.jpg'` (line 140). -/
def outputName (file : String) : String :=
  basenameStrip file (extname file) ++ ".jpg"

/-- `path.join(a, b)` for a directory path and an entry name. -/
def pjoin (a b : String) : String := a ++ "/" ++ b

/-! ### Single-file converter (`convertHeicToJpg`, lines 16–72) -/

/-- Observable events of one `convertHeicToJpg` call, in program order. -/
inductive FEvent where
  | accessFail (p : String)
  | read (p : String)
  | warnOverwrite (p : String)
  | codecRun (quality : Nat)
  | codecFail
  | statIn (p : String)
  | write (p : String)
  | setTimes (p : String)
  | warnTimestamps
  | logSuccess (input output : String)
  | logError (msg : String)
deriving DecidableEq, Repr

/-- The opaque collaborators of one conversion: which paths `fs.access`
finds, whether the codec call succeeds, whether `fs.utimes` succeeds. -/
structure ConvEnv where
  fsHas : String → Bool
  codecOk : Bool
  utimesOk : Bool

/-- Output-path resolution of `convertHeicToJpg` (lines 29–31): the
explicitly given path when it is present and truthy, otherwise the input
path with a trailing `.heic` replaced by `.jpg`.  An explicitly given empty
string is falsy in JavaScript and therefore also triggers the derivation. -/
def resolveOutput (inputPath : String) (outputPath : Option String) : String :=
  match outputPath with
  | none => replaceHeicExt inputPath
  | some p => if p = "" then replaceHeicExt inputPath else p

/-- `convertHeicToJpg(inputPath, outputPath, quality)` (lines 16–72):
returns the thrown error or the resolved output path, paired with the
event trace (input access check, read, overwrite warning, codec call,
stat, write, timestamp copy or warning, success or error log). -/
def convertHeicToJpg (env : ConvEnv) (inputPath : String)
    (outputPath : Option String) (quality : Nat) :
    Except String String × List FEvent :=
  if env.fsHas inputPath = false then
    let msg := "Input file not found: " ++ inputPath
    (Except.error msg, [FEvent.accessFail inputPath, FEvent.logError msg])
  else
    let out := resolveOutput inputPath outputPath
    let evs1 := FEvent.read inputPath ::
      (if env.fsHas out then [FEvent.warnOverwrite out] else [])
    if env.codecOk = false then
      (Except.error "ERR_LIBHEIF format not supported",
        evs1 ++ [FEvent.codecFail,
          FEvent.logError "ERR_LIBHEIF format not supported"])
    else
      let evs2 := evs1 ++
        [FEvent.codecRun quality, FEvent.statIn inputPath, FEvent.write out]
      if env.utimesOk then
        (Except.ok out, evs2 ++ [FEvent.setTimes out, FEvent.logSuccess inputPath out])
      else
        (Except.ok out,
          evs2 ++ [FEvent.warnTimestamps, FEvent.logSuccess inputPath out])

/-- Whether an event touches file data or the codec: a read of the input, a
codec invocation, a write of the output, or a timestamp update. -/
def touchesData : FEvent → Bool
  | FEvent.read _ => true
  | FEvent.codecRun _ => true
  | FEvent.write _ => true
  | FEvent.setTimes _ => true
  | _ => false

/-! ### Directory batch orchestrator (`convertAllHeicInDirectory`, lines 82–163)

The directory tree handed to the orchestrator is modelled explicitly: a node
carries the non-directory entries (entry name paired with whether the
single-file conversion of that file would succeed — the abstraction of the
codec and file system for that file) and the subdirectory entries, each in
`readdir` order. -/

/-- A source directory: plain entries `(name, conversion succeeds?)` and
subdirectory entries `(name, subtree)`. -/
inductive DirTree where
  | node (files : List (String × Bool)) (subdirs : List (String × DirTree))

/-- Observable events of one `convertAllHeicInDirectory` call. -/
inductive BEvent where
  | mkdirOut (dir : String)
  | noFiles (dir : String)
  | found (n : Nat) (dir : String)
  | attempt (input output : String) (quality : Nat) (ok : Bool)
  | progress (done total pct : Nat)
  | failLog (file : String)
  | summaryOk (completed total : Nat)
  | summaryIssues (completed total failed : Nat)
deriving DecidableEq, Repr

/-- `Math.round(d / t * 100)` for the progress percentage (line 146),
computed exactly on naturals: `round(100 * d / t) = ⌊(200 d + t) / (2 t)⌋`. -/
def pct (d t : Nat) : Nat := (200 * d + t) / (2 * t)

/-- Resolution of the output directory (lines 95–97): the given directory
when present and truthy, else the source directory itself. -/
def resolveOutDir (directoryPath : String) (outputDirectory : Option String) : String :=
  match outputDirectory with
  | none => directoryPath
  | some s => if s = "" then directoryPath else s

/-- The per-file conversion loop (lines 134–152).  State: remaining files,
`completed`, `failed`.  Each file is attempted with input
`directoryPath/file` and explicit output `outputDirectory/<base>.jpg`; a
success increments `completed` and logs a progress line showing
`completed + failed` of `total`; a failure logs the error, increments
`failed`, and the loop continues with the next file. -/
def processFiles (dirPath outDir : String) (q total : Nat) :
    List (String × Bool) → Nat → Nat → List BEvent × Nat × Nat
  | [], c, f => ([], c, f)
  | (name, ok) :: rest, c, f =>
    let input := pjoin dirPath name
    let out := pjoin outDir (outputName name)
    if ok then
      let r := processFiles dirPath outDir q total rest (c + 1) f
      (BEvent.attempt input out q true ::
        BEvent.progress (c + 1 + f) total (pct (c + 1 + f) total) :: r.1, r.2)
    else
      let r := processFiles dirPath outDir q total rest c (f + 1)
      (BEvent.attempt input out q false :: BEvent.failLog name :: r.1, r.2)

/-- The `heicFiles` filter (lines 110–112): the non-directory entries whose
name matches `/\.(heic|heif)$/i`, in enumeration order. -/
def heicFilesOf (files : List (String × Bool)) : List (String × Bool) :=
  files.filter (fun p => isHeic p.1)

mutual

/-- `convertAllHeicInDirectory(directoryPath, outputDirectory, quality,
recursive)` (lines 82–163) as an event trace: resolve and create the output
directory, list the entries, filter the HEIC/HEIF files, recurse into every
subdirectory first when `recursive` is set (same quality, recursion flag
`true`, output mirrored under the destination), then either report that no
eligible files were found, or convert the files one by one and end with the
summary line. -/
def convertAll : DirTree → String → Option String → Nat → Bool → List BEvent
  | DirTree.node files subdirs, directoryPath, outputDirectory, quality, recursive =>
    let outDir := resolveOutDir directoryPath outputDirectory
    let hf := heicFilesOf files
    let subEvents :=
      if recursive then convertSubdirs subdirs directoryPath outDir quality else []
    if hf.length = 0 then
      BEvent.mkdirOut outDir :: (subEvents ++ [BEvent.noFiles directoryPath])
    else
      let r := processFiles directoryPath outDir quality hf.length hf 0 0
      BEvent.mkdirOut outDir ::
        (subEvents ++ (BEvent.found hf.length directoryPath :: r.1) ++
          [if r.2.2 = 0 then BEvent.summaryOk r.2.1 hf.length
           else BEvent.summaryIssues r.2.1 hf.length r.2.2])

/-- The subdirectory loop (lines 115–125): each subdirectory is processed
in order, recursively, with output `outputDirectory/<subdir name>`. -/
def convertSubdirs : List (String × DirTree) → String → String → Nat → List BEvent
  | [], _, _, _ => []
  | (name, sub) :: rest, directoryPath, outDir, quality =>
    convertAll sub (pjoin directoryPath name) (some (pjoin outDir name)) quality true ++
      convertSubdirs rest directoryPath outDir quality

end

/-- Entry into the orchestrator including the directory precondition
(lines 84–92): a missing or non-directory source path produces an error
before anything is touched; otherwise the orchestrated trace is produced
and the call returns normally. -/
def convertAllEntry (t : Option DirTree) (directoryPath : String)
    (outputDirectory : Option String) (quality : Nat) (recursive : Bool) :
    Except String (List BEvent) :=
  match t with
  | none =>
    Except.error ("Input directory not found or not accessible: " ++ directoryPath)
  | some tree => Except.ok (convertAll tree directoryPath outputDirectory quality recursive)

/-- The `(input, output, ok)` content of an `attempt` event. -/
def attemptOf : BEvent → Option (String × String × Bool)
  | BEvent.attempt i o _ ok => some (i, o, ok)
  | _ => none

/-- The running count carried by a `progress` event. -/
def progressOf : BEvent → Option Nat
  | BEvent.progress d _ _ => some d
  | _ => none

/-- Running counts of the progress lines of a trace. -/
def progressVals (tr : List BEvent) : List Nat := tr.filterMap progressOf

/-- Whether an event is a progress line. -/
def isProgressEv : BEvent → Bool
  | BEvent.progress _ _ _ => true
  | _ => false

/-- Whether an event is a per-file conversion attempt. -/
def isAttemptEv : BEvent → Bool
  | BEvent.attempt _ _ _ _ => true
  | _ => false

/-! ### CLI front end (lines 166–231) -/

/-- JavaScript string whitespace accepted by `parseInt` (ASCII part). -/
def isJsSpace (c : Char) : Bool :=
  c = ' ' || c = '\t' || c = '\n' || c = '\r' || c = '\x0b' || c = '\x0c'

/-- Decimal value of a digit run. -/
def digitsToNat : List Char → Nat → Nat
  | [], acc => acc
  | c :: rest, acc => digitsToNat rest (acc * 10 + (c.toNat - '0'.toNat))

/-- `parseInt(s, 10)`: skip leading whitespace, read an optional sign and
then the longest run of decimal digits; `none` models `NaN` (no digits at
all).  Trailing non-digit characters are ignored, as in JavaScript. -/
def jsParseInt (s : String) : Option Int :=
  let cs := s.data.dropWhile isJsSpace
  let sgn : Int := match cs with
    | '-' :: _ => -1
    | _ => 1
  let cs1 := match cs with
    | '-' :: rest => rest
    | '+' :: rest => rest
    | _ => cs
  let ds := cs1.takeWhile Char.isDigit
  if ds.isEmpty then none else some (sgn * (digitsToNat ds 0 : Nat))

/-- `args.find(arg => arg.startsWith('--quality='))` (line 189), with the
same character-list suffix machinery as the rest of the model. -/
def startsWithStr (s t : String) : Bool :=
  Nat.ble t.data.length s.data.length && s.data.take t.data.length == t.data

/-- First `--quality=` argument, if any. -/
def findQualityArg (args : List String) : Option String :=
  args.find? (fun a => startsWithStr a "--quality=")

/-- `qualityArg.split('=')[1]` (line 191): the segment between the first
`=` and the following `=` (or the end). -/
def qualityValueOf (arg : String) : String :=
  String.mk (((arg.data.dropWhile (fun c => c ≠ '=')).drop 1).takeWhile (fun c => c ≠ '='))

/-- `args.includes('--help') || args.includes('-h')` (line 170). -/
def hasHelp (args : List String) : Bool :=
  args.contains "--help" || args.contains "-h"

/-- The CLI error message for an out-of-range or unparseable quality. -/
def invalidQualityMsg : String :=
  "Invalid quality value. Please use a number between 1 and 100."

/-- The CLI error message for a missing directory argument. -/
def dirRequiredMsg : String := "Error: Input directory is required"

/-- Outcome of the CLI front end: help text and exit, an error message and
exit with the given code before any conversion is dispatched, or a dispatch
into the batch orchestrator / single-file converter.  File I/O happens only
under the two dispatch outcomes. -/
inductive CliOutcome where
  | exitHelp (code : Nat)
  | exitError (code : Nat) (msg : String)
  | runDir (input : String) (output : Option String) (quality : Int) (recursive : Bool)
  | runSingle (input : Option String) (output : Option String) (quality : Int)
deriving DecidableEq, Repr

/-- Quality parsing (lines 187–200): when a `--quality=` argument is
present, its value must `parseInt` to an integer in `[1, 100]`; the
argument is then removed from the argument list (first occurrence, as
`indexOf`/`splice` do) and the parsed value replaces the default `90`.
`none` models the error-and-exit path. -/
def parseQuality (args : List String) : Option (List String × Int) :=
  match findQualityArg args with
  | none => some (args, 90)
  | some qa =>
    match jsParseInt (qualityValueOf qa) with
    | some v => if 1 ≤ v ∧ v ≤ 100 then some (args.erase qa, v) else none
    | none => none

/-- The CLI front end (lines 166–231): help handling, quality parsing,
`--recursive` extraction, then dispatch on `--dir` versus single-file mode.
A missing or empty (falsy) directory argument after `--dir` is an error. -/
def cliMain (args : List String) : CliOutcome :=
  if args.length < 1 || hasHelp args then
    CliOutcome.exitHelp (if hasHelp args then 0 else 1)
  else
    match parseQuality args with
    | none => CliOutcome.exitError 1 invalidQualityMsg
    | some (args1, q) =>
      let isRec := args1.contains "--recursive"
      let args2 := if isRec then args1.erase "--recursive" else args1
      if args2.head? = some "--dir" then
        match args2.get? 1 with
        | none => CliOutcome.exitError 1 dirRequiredMsg
        | some d =>
          if d = "" then CliOutcome.exitError 1 dirRequiredMsg
          else CliOutcome.runDir d (args2.get? 2) q isRec
      else
        CliOutcome.runSingle args2.head? (args2.get? 1) q

/-- The quality carried by a dispatch outcome, when the outcome is a
dispatch at all. -/
def dispatchedQuality : CliOutcome → Option Int
  | CliOutcome.runDir _ _ q _ => some q
  | CliOutcome.runSingle _ _ q => some q
  | _ => none

end HeicConv

namespace HeicConv

example : replaceHeicExt "photo.HEIC" = "photo.jpg" := by decide
example : replaceHeicExt "photo.heif" = "photo.heif" := by decide
example : outputName "a.HEIF" = "a.jpg" := by decide
example : outputName ".heic" = ".heic.jpg" := by decide
example : extname "a.b.heic" = ".heic" := by decide
example : jsParseInt "90" = some 90 := by decide
example : jsParseInt "90abc" = some 90 := by decide
example : jsParseInt "abc" = none := by decide
example : jsParseInt "-5" = some (-5) := by decide
example : qualityValueOf "--quality=95" = "95" := by decide
example : cliMain ["--quality=101", "x.heic"] = CliOutcome.exitError 1 invalidQualityMsg := by decide
example : cliMain ["x.heic", "--quality=95"] = CliOutcome.runSingle (some "x.heic") none 95 := by decide
example : cliMain ["--dir", "d", "--recursive"] = CliOutcome.runDir "d" none 90 true := by decide
example : cliMain ["--help"] = CliOutcome.exitHelp 0 := by decide
example :
    convertAll (DirTree.node [("a.heic", true), ("b.txt", true)] []) "d" none 90 false =
      [BEvent.mkdirOut "d", BEvent.found 1 "d",
       BEvent.attempt "d/a.heic" "d/a.jpg" 90 true, BEvent.progress 1 1 100,
       BEvent.summaryOk 1 1] := by decide

/-! ### Claims about the single-file converter -/

/-- **C5.** For every input path that does not refer to an existing file,
`convertHeicToJpg` fails with the `Input file not found` error, and the
event trace contains no read, no codec invocation, no write and no
timestamp update: the failure precedes any codec work. -/
theorem c5_missing_input_fails_before_codec_work (env : ConvEnv) (input : String)
    (out : Option String) (q : Nat) (h : env.fsHas input = false) :
    (convertHeicToJpg env input out q).1 =
      Except.error ("Input file not found: " ++ input) ∧
    (convertHeicToJpg env input out q).2.all (fun e => !touchesData e) = true := by
  simp [convertHeicToJpg, h, touchesData]

/-- Witness for C5: a concrete environment holding only `in.heic`, queried
at the absent `nope.heic`. -/
theorem c5_missing_input_witness :
    (fun p => decide (p = "in.heic")) "nope.heic" = false ∧
    (convertHeicToJpg ⟨fun p => decide (p = "in.heic"), true, true⟩
        "nope.heic" none 90).1 =
      Except.error ("Input file not found: " ++ "nope.heic") ∧
    (convertHeicToJpg ⟨fun p => decide (p = "in.heic"), true, true⟩
        "nope.heic" none 90).2.all (fun e => !touchesData e) = true :=
  ⟨by decide,
   (c5_missing_input_fails_before_codec_work
      ⟨fun p => decide (p = "in.heic"), true, true⟩ "nope.heic" none 90 (by decide)).1,
   (c5_missing_input_fails_before_codec_work
      ⟨fun p => decide (p = "in.heic"), true, true⟩ "nope.heic" none 90 (by decide)).2⟩

/-- **C6.** Whenever the input exists and the codec succeeds but the
timestamp copy (`fs.utimes`) fails, the conversion still succeeds — it
returns the resolved output path — and the trace shows the output was
written and the timestamp failure was reported only as a warning.  This
holds for every input path, output argument and quality, i.e. in every
context. -/
theorem c6_timestamp_failure_is_warning_only (fsH : String → Bool) (input : String)
    (out : Option String) (q : Nat) (h : fsH input = true) :
    (convertHeicToJpg ⟨fsH, true, false⟩ input out q).1 =
      Except.ok (resolveOutput input out) ∧
    FEvent.warnTimestamps ∈ (convertHeicToJpg ⟨fsH, true, false⟩ input out q).2 ∧
    FEvent.write (resolveOutput input out) ∈
      (convertHeicToJpg ⟨fsH, true, false⟩ input out q).2 := by
  by_cases hov : fsH (resolveOutput input out) = true <;>
    simp [convertHeicToJpg, h, hov]

/-- Witness for C6: the file `in.heic` exists, the codec succeeds, the
timestamp copy fails; the call still returns the derived `in.jpg`. -/
theorem c6_timestamp_failure_witness :
    (fun p => decide (p = "in.heic")) "in.heic" = true ∧
    (convertHeicToJpg ⟨fun p => decide (p = "in.heic"), true, false⟩
        "in.heic" none 90).1 = Except.ok (resolveOutput "in.heic" none) ∧
    FEvent.warnTimestamps ∈
      (convertHeicToJpg ⟨fun p => decide (p = "in.heic"), true, false⟩
        "in.heic" none 90).2 :=
  ⟨by decide,
   (c6_timestamp_failure_is_warning_only (fun p => decide (p = "in.heic"))
      "in.heic" none 90 (by decide)).1,
   (c6_timestamp_failure_is_warning_only (fun p => decide (p = "in.heic"))
      "in.heic" none 90 (by decide)).2.1⟩

/-- **C7.** Whenever the resolved output path already exists, the
conversion emits the overwrite warning before the write, then overwrites
the file and completes successfully: the whole behaviour is pinned as an
event trace in which `warnOverwrite` strictly precedes `write`, and the
result is `ok` regardless of the pre-existing file. -/
theorem c7_existing_output_warns_then_overwrites (fsH : String → Bool) (uOk : Bool)
    (input : String) (out : Option String) (q : Nat)
    (h1 : fsH input = true) (h2 : fsH (resolveOutput input out) = true) :
    convertHeicToJpg ⟨fsH, true, uOk⟩ input out q =
      (Except.ok (resolveOutput input out),
        [FEvent.read input, FEvent.warnOverwrite (resolveOutput input out),
         FEvent.codecRun q, FEvent.statIn input,
         FEvent.write (resolveOutput input out)] ++
        (if uOk then
           [FEvent.setTimes (resolveOutput input out),
            FEvent.logSuccess input (resolveOutput input out)]
         else
           [FEvent.warnTimestamps, FEvent.logSuccess input (resolveOutput input out)])) := by
  simp only [convertHeicToJpg, h1, h2]
  cases uOk <;> simp

/-- Witness for C7: every path exists, so the output `a.jpg` derived from
`a.heic` pre-exists; the trace shows the warning, then the write, and the
call succeeds. -/
theorem c7_existing_output_witness :
    (fun _ : String => true) "a.heic" = true ∧
    (fun _ : String => true) (resolveOutput "a.heic" none) = true ∧
    convertHeicToJpg ⟨fun _ => true, true, true⟩ "a.heic" none 90 =
      (Except.ok "a.jpg",
       [FEvent.read "a.heic", FEvent.warnOverwrite "a.jpg", FEvent.codecRun 90,
        FEvent.statIn "a.heic", FEvent.write "a.jpg", FEvent.setTimes "a.jpg",
        FEvent.logSuccess "a.heic" "a.jpg"]) :=
  ⟨rfl, rfl,
   (c7_existing_output_warns_then_overwrites (fun _ => true) true "a.heic" none 90
      rfl rfl).trans (by decide)⟩

/-- **C1 (code bug).** The spec and the converter's own documentation say
the default output path is derived by replacing a `.heic`/`.heif`
extension (case-insensitively) with `.jpg`, but the source regex
`/\.heic$/i` matches only `.heic`: for a `.heif` input with no explicit
output, the path is left unchanged, and the conversion then writes the
JPEG over the input file itself. -/
theorem c1_heif_extension_not_replaced :
    resolveOutput "photo.heif" none = "photo.heif" ∧
    resolveOutput "photo.HEIC" none = "photo.jpg" ∧
    (convertHeicToJpg ⟨fun p => decide (p = "photo.heif"), true, true⟩
        "photo.heif" none 90).1 = Except.ok "photo.heif" ∧
    FEvent.write "photo.heif" ∈
      (convertHeicToJpg ⟨fun p => decide (p = "photo.heif"), true, true⟩
        "photo.heif" none 90).2 := by
  decide

/-! ### Trace lemmas for the batch loop -/

lemma processFiles_counts (dirPath outDir : String) (q total : Nat) :
    ∀ (files : List (String × Bool)) (c f : Nat),
      (processFiles dirPath outDir q total files c f).2 =
        (c + files.countP (fun p => p.2), f + files.countP (fun p => !p.2)) := by
  intro files
  induction files with
  | nil => intro c f; simp [processFiles]
  | cons p rest ih =>
    intro c f
    obtain ⟨name, ok⟩ := p
    cases ok <;> simp [processFiles, ih, List.countP_cons] <;> omega

lemma processFiles_attempts (dirPath outDir : String) (q total : Nat) :
    ∀ (files : List (String × Bool)) (c f : Nat),
      (processFiles dirPath outDir q total files c f).1.filterMap attemptOf =
        files.map (fun p => (pjoin dirPath p.1, pjoin outDir (outputName p.1), p.2)) := by
  intro files
  induction files with
  | nil => intro c f; simp [processFiles]
  | cons p rest ih =>
    intro c f
    obtain ⟨name, ok⟩ := p
    cases ok <;> simp [processFiles, ih, attemptOf]

/-- The running counts a success-driven walk of the file list would show:
`n` is `completed + failed` so far, each file advances it by one, and a
count is emitted exactly at the successful files. -/
def progressList : Nat → List (String × Bool) → List Nat
  | _, [] => []
  | n, (_, ok) :: rest =>
    if ok then (n + 1) :: progressList (n + 1) rest else progressList (n + 1) rest

lemma processFiles_progressVals (dirPath outDir : String) (q total : Nat) :
    ∀ (files : List (String × Bool)) (c f : Nat),
      progressVals (processFiles dirPath outDir q total files c f).1 =
        progressList (c + f) files := by
  intro files
  induction files with
  | nil => intro c f; simp [processFiles, progressVals, progressList]
  | cons p rest ih =>
    intro c f
    obtain ⟨name, ok⟩ := p
    have ihf := ih c (f + 1)
    have iht := ih (c + 1) f
    simp only [progressVals] at ihf iht ⊢
    cases ok with
    | false =>
      have h1 : c + (f + 1) = c + f + 1 := by omega
      rw [h1] at ihf
      simp [processFiles, progressList, progressOf, ihf]
    | true =>
      have h1 : c + 1 + f = c + f + 1 := by omega
      rw [h1] at iht
      simp [processFiles, progressList, progressOf, iht, h1]

lemma progressList_chain :
    ∀ (files : List (String × Bool)) (n : Nat),
      List.Chain' (· < ·) (progressList n files) ∧
      ∀ v ∈ progressList n files, n < v := by
  intro files
  induction files with
  | nil => intro n; simp [progressList]
  | cons p rest ih =>
    intro n
    obtain ⟨name, ok⟩ := p
    cases ok with
    | false =>
      refine ⟨?_, fun v hv => ?_⟩
      · simpa [progressList] using (ih (n + 1)).1
      · have hv' : v ∈ progressList (n + 1) rest := by
          simpa [progressList] using hv
        have := (ih (n + 1)).2 v hv'
        omega
    | true =>
      have hunf : progressList n ((name, true) :: rest) =
          (n + 1) :: progressList (n + 1) rest := by simp [progressList]
      refine ⟨?_, fun v hv => ?_⟩
      · rw [hunf, List.chain'_cons']
        exact ⟨fun b hb => (ih (n + 1)).2 b (List.mem_of_mem_head? hb), (ih (n + 1)).1⟩
      · rw [hunf, List.mem_cons] at hv
        rcases hv with rfl | hv
        · omega
        · have := (ih (n + 1)).2 v hv
          omega

lemma progressList_length :
    ∀ (files : List (String × Bool)) (n : Nat),
      (progressList n files).length = files.countP (fun p => p.2) := by
  intro files
  induction files with
  | nil => intro n; simp [progressList]
  | cons p rest ih =>
    intro n
    obtain ⟨name, ok⟩ := p
    cases ok <;> simp [progressList, List.countP_cons, ih]

lemma processFiles_progress_shape (dirPath outDir : String) (q total : Nat) :
    ∀ (files : List (String × Bool)) (c f : Nat) (d t pc : Nat),
      BEvent.progress d t pc ∈ (processFiles dirPath outDir q total files c f).1 →
      t = total ∧ pc = pct d total := by
  intro files
  induction files with
  | nil => intro c f d t pc h; simp [processFiles] at h
  | cons p rest ih =>
    intro c f d t pc h
    obtain ⟨name, ok⟩ := p
    cases ok with
    | false =>
      simp [processFiles] at h
      exact ih c (f + 1) d t pc h
    | true =>
      simp [processFiles] at h
      rcases h with ⟨rfl, rfl, rfl⟩ | h
      · exact ⟨rfl, rfl⟩
      · exact ih (c + 1) f d t pc h

lemma countP_bool_add (l : List (String × Bool)) :
    l.countP (fun p => p.2) + l.countP (fun p => !p.2) = l.length := by
  induction l with
  | nil => simp
  | cons p rest ih =>
    obtain ⟨n, b⟩ := p
    cases b <;> simp [List.countP_cons, ih] <;> omega

lemma convertSubdirs_eq_join :
    ∀ (l : List (String × DirTree)) (dirPath outDir : String) (q : Nat),
      convertSubdirs l dirPath outDir q =
        (l.map (fun p =>
          convertAll p.2 (pjoin dirPath p.1) (some (pjoin outDir p.1)) q true)).flatten := by
  intro l
  induction l with
  | nil => intro dirPath outDir q; simp [convertSubdirs]
  | cons p rest ih =>
    intro dirPath outDir q
    obtain ⟨n, s⟩ := p
    simp [convertSubdirs, ih]

/-! ### Claims about the batch orchestrator -/

/-- **C2.** In a batch, every discovered HEIC file is attempted — a failure
is caught, counted, and does not stop the loop — and the final summary
event reports a succeeded count and a failed count summing to the number of
files discovered.  The attempts in the trace are exactly the discovered
files, in order, and the trace's last event is the summary. -/
theorem c2_batch_continue_on_error (files : List (String × Bool))
    (subdirs : List (String × DirTree)) (dir out : String) (q : Nat) (rc : Bool)
    (hout : out ≠ "") (hne : heicFilesOf files ≠ []) :
    (processFiles dir out q (heicFilesOf files).length (heicFilesOf files) 0 0).2.1 +
      (processFiles dir out q (heicFilesOf files).length (heicFilesOf files) 0 0).2.2 =
      (heicFilesOf files).length ∧
    (processFiles dir out q (heicFilesOf files).length
        (heicFilesOf files) 0 0).1.filterMap attemptOf =
      (heicFilesOf files).map
        (fun p => (pjoin dir p.1, pjoin out (outputName p.1), p.2)) ∧
    (convertAll (DirTree.node files subdirs) dir (some out) q rc).getLast? =
      some
        (if (processFiles dir out q (heicFilesOf files).length
              (heicFilesOf files) 0 0).2.2 = 0 then
          BEvent.summaryOk
            (processFiles dir out q (heicFilesOf files).length
              (heicFilesOf files) 0 0).2.1 (heicFilesOf files).length
         else
          BEvent.summaryIssues
            (processFiles dir out q (heicFilesOf files).length
              (heicFilesOf files) 0 0).2.1 (heicFilesOf files).length
            (processFiles dir out q (heicFilesOf files).length
              (heicFilesOf files) 0 0).2.2) := by
  have hres : resolveOutDir dir (some out) = out := by simp [resolveOutDir, hout]
  have hlen : ¬((heicFilesOf files).length = 0) := by
    simpa [List.length_eq_zero] using hne
  refine ⟨?_, processFiles_attempts dir out q (heicFilesOf files).length
      (heicFilesOf files) 0 0, ?_⟩
  · have hc := processFiles_counts dir out q (heicFilesOf files).length
      (heicFilesOf files) 0 0
    have h1 : (processFiles dir out q (heicFilesOf files).length
        (heicFilesOf files) 0 0).2.1 = (heicFilesOf files).countP (fun p => p.2) := by
      rw [hc]; simp
    have h2 : (processFiles dir out q (heicFilesOf files).length
        (heicFilesOf files) 0 0).2.2 = (heicFilesOf files).countP (fun p => !p.2) := by
      rw [hc]; simp
    rw [h1, h2]
    exact countP_bool_add (heicFilesOf files)
  · rw [convertAll]
    simp only [hres, hlen, if_false, reduceIte]
    rw [← List.cons_append, List.getLast?_concat]

/-- Witness for C2: a batch of five HEIC files in which the second fails.
Files 1, 3, 4, 5 are still attempted and convert; the summary reports 4
succeeded and 1 failed out of 5. -/
theorem c2_batch_witness :
    (("o" : String) ≠ "") ∧
    heicFilesOf [("f1.heic", true), ("f2.heic", false), ("f3.heic", true),
        ("f4.heic", true), ("f5.heic", true)] ≠ [] ∧
    (convertAll
        (DirTree.node [("f1.heic", true), ("f2.heic", false), ("f3.heic", true),
          ("f4.heic", true), ("f5.heic", true)] [])
        "d" (some "o") 90 false).getLast? =
      some (BEvent.summaryIssues 4 5 1) :=
  ⟨by decide, by decide,
   ((c2_batch_continue_on_error
      [("f1.heic", true), ("f2.heic", false), ("f3.heic", true),
        ("f4.heic", true), ("f5.heic", true)] [] "d" "o" 90 false
      (by decide) (by decide)).2.2).trans (by decide)⟩

/-- **C3.** With the recursive flag set, the orchestrator's trace is:
create the destination, then — before the parent's own file loop — the
complete trace of each subdirectory in order, each processed with the same
quality and recursion flag `true` and with its output written into the
correspondingly-named subdirectory of the destination, and finally the
parent's own file-loop trace. -/
theorem c3_recursion_depth_first_mirrors_structure (files : List (String × Bool))
    (subdirs : List (String × DirTree)) (dir out : String) (q : Nat)
    (hout : out ≠ "") :
    convertAll (DirTree.node files subdirs) dir (some out) q true =
      BEvent.mkdirOut out ::
        ((subdirs.map (fun p =>
            convertAll p.2 (pjoin dir p.1) (some (pjoin out p.1)) q true)).flatten ++
          (convertAll (DirTree.node files []) dir (some out) q true).tail) := by
  have hres : resolveOutDir dir (some out) = out := by simp [resolveOutDir, hout]
  by_cases h : (heicFilesOf files).length = 0 <;>
    simp [convertAll, hres, h, convertSubdirs_eq_join, convertSubdirs]

/-- Witness for C3: a directory with one file and one subdirectory holding
one file; the subdirectory's full trace (into `o/sub`) precedes the
parent's file loop, and the whole trace is evaluated explicitly. -/
theorem c3_recursion_witness :
    (("o" : String) ≠ "") ∧
    convertAll (DirTree.node [("a.heic", true)]
        [("sub", DirTree.node [("p.heic", true)] [])]) "d" (some "o") 90 true =
      BEvent.mkdirOut "o" ::
        (([("sub", DirTree.node [("p.heic", true)] [])].map (fun p =>
            convertAll p.2 (pjoin "d" p.1) (some (pjoin "o" p.1)) 90 true)).flatten ++
          (convertAll (DirTree.node [("a.heic", true)] []) "d" (some "o") 90 true).tail) ∧
    convertAll (DirTree.node [("a.heic", true)]
        [("sub", DirTree.node [("p.heic", true)] [])]) "d" (some "o") 90 true =
      [BEvent.mkdirOut "o", BEvent.mkdirOut "o/sub", BEvent.found 1 "d/sub",
       BEvent.attempt "d/sub/p.heic" "o/sub/p.jpg" 90 true, BEvent.progress 1 1 100,
       BEvent.summaryOk 1 1, BEvent.found 1 "d",
       BEvent.attempt "d/a.heic" "o/a.jpg" 90 true, BEvent.progress 1 1 100,
       BEvent.summaryOk 1 1] :=
  ⟨by decide,
   c3_recursion_depth_first_mirrors_structure [("a.heic", true)]
     [("sub", DirTree.node [("p.heic", true)] [])] "d" "o" 90 (by decide),
   by decide⟩

/-- **C9.** When a directory contains zero eligible HEIC/HEIF files —
independent of what recursion into its subdirectories did — the
orchestrator returns normally (the entry call yields `ok`, no error) and
the last event of its trace is the informational `No HEIC files found`
report for that directory. -/
theorem c9_zero_files_reported_informationally (files : List (String × Bool))
    (subdirs : List (String × DirTree)) (dir out : String) (q : Nat) (rc : Bool)
    (hnone : heicFilesOf files = []) (hout : out ≠ "") :
    convertAllEntry (some (DirTree.node files subdirs)) dir (some out) q rc =
      Except.ok (convertAll (DirTree.node files subdirs) dir (some out) q rc) ∧
    (convertAll (DirTree.node files subdirs) dir (some out) q rc).getLast? =
      some (BEvent.noFiles dir) := by
  have hres : resolveOutDir dir (some out) = out := by simp [resolveOutDir, hout]
  refine ⟨rfl, ?_⟩
  rw [convertAll]
  simp only [hres, hnone, List.length_nil, reduceIte]
  rw [← List.cons_append, List.getLast?_concat]

/-- Witness for C9: a directory whose only entry is `x.txt` — with a
subdirectory that does contain a HEIC file and recursion on — still ends
its own trace with the informational no-files report and returns `ok`. -/
theorem c9_zero_files_witness :
    heicFilesOf [("x.txt", true)] = [] ∧ (("o" : String) ≠ "") ∧
    (convertAll (DirTree.node [("x.txt", true)]
        [("sub", DirTree.node [("p.heic", true)] [])]) "d" (some "o") 90 true).getLast? =
      some (BEvent.noFiles "d") :=
  ⟨by decide, by decide,
   (c9_zero_files_reported_informationally [("x.txt", true)]
      [("sub", DirTree.node [("p.heic", true)] [])] "d" "o" 90 true
      (by decide) (by decide)).2⟩

/-- **C4 counterexample.** The claim says a progress line follows every
attempt, success or failure; but a batch whose single file fails emits an
attempt and no progress line at all — the progress log sits only in the
success branch of the loop. -/
theorem c4_failed_attempt_emits_no_progress :
    ((convertAll (DirTree.node [("a.heic", false)] []) "d" (some "o") 90 false).filter
        isProgressEv) = [] ∧
    ((convertAll (DirTree.node [("a.heic", false)] []) "d" (some "o") 90 false).filter
        isAttemptEv).length = 1 := by
  decide

/-- **C4 (amended).** A progress line is emitted only after each successful
attempt (one per success; failed attempts log an error and no progress
line); each progress line shows the attempts completed so far out of the
total discovered together with the rounded percentage, and the emitted
running counts are strictly increasing over the run. -/
theorem c4_progress_monotonic_on_success (files : List (String × Bool))
    (dir out : String) (q : Nat) :
    List.Chain' (· < ·)
      (progressVals (processFiles dir out q files.length files 0 0).1) ∧
    (progressVals (processFiles dir out q files.length files 0 0).1).length =
      files.countP (fun p => p.2) ∧
    ∀ d t pc, BEvent.progress d t pc ∈ (processFiles dir out q files.length files 0 0).1 →
      t = files.length ∧ pc = pct d files.length := by
  refine ⟨?_, ?_, ?_⟩
  · rw [processFiles_progressVals]
    exact (progressList_chain files 0).1
  · rw [processFiles_progressVals, progressList_length]
  · exact fun d t pc h =>
      processFiles_progress_shape dir out q files.length files 0 0 d t pc h

/-- Witness for C4: three files with the middle one failing; the progress
counts are `[1, 3]` — strictly increasing, one per success, none for the
failure — and both carry total `3` with the right percentage. -/
theorem c4_progress_witness :
    progressVals (processFiles "d" "o" 90 3
        [("a.heic", true), ("b.heic", false), ("c.heic", true)] 0 0).1 = [1, 3] ∧
    List.Chain' (· < ·)
      (progressVals (processFiles "d" "o" 90 3
        [("a.heic", true), ("b.heic", false), ("c.heic", true)] 0 0).1) :=
  ⟨by decide,
   (c4_progress_monotonic_on_success
      [("a.heic", true), ("b.heic", false), ("c.heic", true)] "d" "o" 90).1⟩

/-- **C10.** Every file the batch loop processes comes from the
case-insensitive `.heic`/`.heif` filter, and its conversion is invoked with
the output path given explicitly as the destination directory joined with
the file's base name plus `.jpg` — also for `.heif` inputs.  That explicit
path is never empty (truthy), so the single-file converter's default
derivation branch resolves to it unchanged and is never exercised from the
orchestrator. -/
theorem c10_batch_output_always_explicit (files : List (String × Bool))
    (dir out : String) (q total c f : Nat) :
    (processFiles dir out q total (heicFilesOf files) c f).1.filterMap attemptOf =
      (heicFilesOf files).map
        (fun p => (pjoin dir p.1, pjoin out (outputName p.1), p.2)) ∧
    (∀ p ∈ heicFilesOf files, isHeic p.1 = true) ∧
    ∀ name : String,
      pjoin out (outputName name) ≠ "" ∧
      resolveOutput (pjoin dir name) (some (pjoin out (outputName name))) =
        pjoin out (outputName name) := by
  refine ⟨processFiles_attempts dir out q total (heicFilesOf files) c f,
    fun p hp => ?_, fun name => ?_⟩
  · rw [heicFilesOf] at hp
    simpa using List.of_mem_filter hp
  · have hne : pjoin out (outputName name) ≠ "" := by
      intro hcon
      have hlen := congrArg (fun s => s.data.length) hcon
      simp [pjoin] at hlen
    exact ⟨hne, by simp [resolveOutput, hne]⟩

/-! ### Claim about the CLI front end -/

/-- **C8.** For a non-help invocation carrying a `--quality=` option, the
option's value must `parseInt` (radix 10) to an integer in `[1, 100]`: a
non-numeric value or an out-of-range one makes the CLI exit with code 1 and
the invalid-quality message without dispatching any conversion (so before
any file I/O), while an in-range value is carried as the quality of the
dispatched conversion (the only other possible outcome being the
missing-directory error, also exit code 1 and also before any file I/O). -/
theorem c8_quality_option_validated (args : List String) (qa : String)
    (hq : findQualityArg args = some qa) (hh : hasHelp args = false) :
    (jsParseInt (qualityValueOf qa) = none →
      cliMain args = CliOutcome.exitError 1 invalidQualityMsg) ∧
    (∀ v : Int, jsParseInt (qualityValueOf qa) = some v → ¬(1 ≤ v ∧ v ≤ 100) →
      cliMain args = CliOutcome.exitError 1 invalidQualityMsg) ∧
    (∀ v : Int, jsParseInt (qualityValueOf qa) = some v → 1 ≤ v → v ≤ 100 →
      dispatchedQuality (cliMain args) = some v ∨
        cliMain args = CliOutcome.exitError 1 dirRequiredMsg) := by
  have hne : args ≠ [] := by
    intro h
    rw [h] at hq
    simp [findQualityArg] at hq
  have hlen : ¬(args.length < 1) := by
    cases args with
    | nil => exact absurd rfl hne
    | cons a l => simp
  have hdl : decide (args.length < 1) = false := decide_eq_false hlen
  refine ⟨?_, ?_, ?_⟩
  · intro hparse
    simp [cliMain, hdl, hh, parseQuality, hq, hparse, hne]
  · intro v hv hrange
    simp [cliMain, hdl, hh, parseQuality, hq, hv, hrange, hne]
  · intro v hv h1 h100
    have hrange : 1 ≤ v ∧ v ≤ 100 := ⟨h1, h100⟩
    simp only [cliMain, hdl, hh, Bool.or_false, Bool.false_eq_true, if_false,
      parseQuality, hq, hv, if_pos hrange]
    by_cases hdir :
        (if (args.erase qa).contains "--recursive" then
          (args.erase qa).erase "--recursive" else args.erase qa).head? =
          some "--dir"
    · rw [if_pos hdir]
      cases hg :
          (if (args.erase qa).contains "--recursive" then
            (args.erase qa).erase "--recursive" else args.erase qa).get? 1 with
      | none => exact Or.inr rfl
      | some d =>
        by_cases hd : d = ""
        · simp [hd]
        · simp [hd, dispatchedQuality]
    · rw [if_neg hdir]
      exact Or.inl rfl

/-- Witness for C8: `--quality=0` is rejected with exit code 1 and no
dispatch; `--quality=95` dispatches a single-file conversion with quality
95. -/
theorem c8_quality_witness :
    findQualityArg ["photo.heic", "--quality=0"] = some "--quality=0" ∧
    hasHelp ["photo.heic", "--quality=0"] = false ∧
    jsParseInt (qualityValueOf "--quality=0") = some 0 ∧
    cliMain ["photo.heic", "--quality=0"] = CliOutcome.exitError 1 invalidQualityMsg ∧
    cliMain ["photo.heic", "--quality=95"] =
      CliOutcome.runSingle (some "photo.heic") none 95 :=
  ⟨by decide, by decide, by decide,
   (c8_quality_option_validated ["photo.heic", "--quality=0"] "--quality=0"
      (by decide) (by decide)).2.1 0 (by decide) (by decide),
   by decide⟩

/-- Witness for C10: a `.heif` file in batch mode gets the explicit output
`o/a.jpg`, which resolves to itself in the single-file converter. -/
theorem c10_batch_output_witness :
    (processFiles "d" "o" 90 1
        (heicFilesOf [("a.HEIF", true), ("b.txt", true)]) 0 0).1.filterMap attemptOf =
      [("d/a.HEIF", "o/a.jpg", true)] ∧
    resolveOutput "d/a.HEIF" (some "o/a.jpg") = "o/a.jpg" :=
  ⟨((c10_batch_output_always_explicit [("a.HEIF", true), ("b.txt", true)]
      "d" "o" 90 1 0 0).1).trans (by decide),
   by decide⟩

end HeicConv
